import Mathlib

/-!
Verification development for the `tune-my-repos` repository analyzer.

The definitions below are a shallow embedding of the JavaScript source:

* `src/analyzer.js` — the `GitHubAnalyzer` class (`fetchJSON`,
  `checkOrgGithubFile`, `hasOrgGithubRepo`, `checkGovernanceFiles`,
  `calculateMaturity`, `getGovernanceRisk`);
* the OAuth module (`GitHubAuth`: `handleOAuthCallback`, `clearState`);
* the application module (`sortFindings`, the batch analysis loop).

Network I/O is modelled by oracles (`FetchOutcome`, `fetchOk`,
`ExchangeOutcome`, `analyze`) supplying the outcome of each request;
`sessionStorage` and the JS `Map` cache are modelled as association lists;
JavaScript's stable `Array.prototype.sort` is modelled by a stable
insertion sort (`jsSort`).
-/

/-! ## JavaScript value model (what `response.json()` yields) -/

/-- A parsed JSON value, as produced by `response.json()`. -/
inductive JsonVal where
  | null : JsonVal
  | boolb : Bool → JsonVal
  | num : Int → JsonVal
  | str : String → JsonVal
  | arr : List JsonVal → JsonVal
  | obj : List (String × JsonVal) → JsonVal

/-- Property access `v.field`: `some` when `v` is an object with that key,
`none` (JS `undefined`) otherwise. -/
def JsonVal.getField : JsonVal → String → Option JsonVal
  | .obj fields, k => fields.lookup k
  | _, _ => none

/-- JavaScript truthiness of a JSON value (`undefined` is handled by the
callers via `Option`). -/
def JsonVal.truthy : JsonVal → Bool
  | .null => false
  | .boolb b => b
  | .num n => n != 0
  | .str s => s != ""
  | .arr _ => true
  | .obj _ => true

mutual

/-- JavaScript `String(v)` coercion, as used by `new Error(v).message`. -/
def jsToString : JsonVal → String
  | .null => "null"
  | .boolb b => if b then "true" else "false"
  | .num n => toString n
  | .str s => s
  | .arr xs => String.intercalate "," (jsToStringArr xs)
  | .obj _ => "[object Object]"

/-- Element-wise `String` coercion inside `Array.prototype.toString`
(`null` stringifies to the empty string there). -/
def jsToStringArr : List JsonVal → List String
  | [] => []
  | .null :: vs => "" :: jsToStringArr vs
  | v :: vs => jsToString v :: jsToStringArr vs

end

/-! ## HTTP fetch gateway (`GitHubAnalyzer.fetchJSON`, src/analyzer.js) -/

/-- A fetch `Response` as far as `fetchJSON` inspects it: the HTTP status
and the result of parsing the body as JSON (`none` when `response.json()`
would reject). -/
structure HttpResponse where
  status : Nat
  body : Option JsonVal

/-- `Response.ok` — true for 2xx statuses. -/
def HttpResponse.ok (r : HttpResponse) : Bool :=
  200 ≤ r.status && r.status ≤ 299

/-- Outcome of one `fetch(url, {headers})` call: either the promise rejects
at the network level (DNS, connection refused, CORS — per the WHATWG fetch
specification this rejection is a `TypeError`), or a response arrives. -/
inductive FetchOutcome where
  | netError : String → FetchOutcome
  | resp : HttpResponse → FetchOutcome

/-- A thrown JavaScript error value, classified by its runtime class. -/
inductive JSThrown where
  /-- a plain `Error` constructed with `new Error(message)` -/
  | errObj : String → JSThrown
  /-- a `TypeError` — what `fetch` rejects with on network failure -/
  | typeErr : String → JSThrown
  /-- a `SyntaxError` — what `response.json()` rejects with on a
  non-JSON body -/
  | syntaxErr : String → JSThrown
deriving DecidableEq

/-- `GitHubAnalyzer.fetchJSON` (src/analyzer.js lines 13–29), as a function
of the fetch outcome.  On `!response.ok` the body is parsed with
`.catch(() => ({}))` and `new Error(error.message || `GitHub API error:
${status}`)` is thrown; a network-level rejection of `fetch` itself
propagates unchanged. -/
def fetchJSON : FetchOutcome → Except JSThrown JsonVal
  | .netError cause => .error (.typeErr cause)
  | .resp r =>
    if !r.ok then
      let errorVal := r.body.getD (.obj [])
      let msg :=
        match errorVal.getField "message" with
        | some v => if v.truthy then jsToString v else "GitHub API error: " ++ toString r.status
        | none => "GitHub API error: " ++ toString r.status
      .error (.errObj msg)
    else
      match r.body with
      | some v => .ok v
      | none => .error (.syntaxErr "Unexpected end of JSON input")

/-! ## Findings and maturity (`src/analyzer.js`) -/

/-- One finding pushed onto `result.findings`. -/
structure Finding where
  category : String
  severity : String
  title : String
  description : String
  recommendation : String
  automated : Bool
  time_estimate : String
  requires_write_access : Bool
deriving DecidableEq

/-- The mutable parts of the per-repository `result` object that the checks
write to. -/
structure AnalysisResultRec where
  findings : List Finding
  limitations : List String
deriving DecidableEq

/-- `GitHubAnalyzer.calculateMaturity` (src/analyzer.js lines 418–425). -/
def calculateMaturity (result : AnalysisResultRec) : String :=
  let critical := (result.findings.filter fun f => f.severity == "critical").length
  let important := (result.findings.filter fun f => f.severity == "important").length
  if critical > 0 then "low"
  else if important > 2 then "medium"
  else "high"

/-- Modelled from the spec's words (§ Maturity derivation): `critical
findings > 0 → low`; else `important findings > 2 → medium`; else `high`.
Used as the specification side of the refinement check for
`calculateMaturity`. -/
def maturityOfCounts (critical important : Nat) : String :=
  if critical > 0 then "low"
  else if important > 2 then "medium"
  else "high"

/-! ## Governance checks (`GitHubAnalyzer.checkGovernanceFiles`) -/

/-- JS `s.toLowerCase()` on the ASCII filenames involved, at the
character level. -/
def strToLower (s : String) : String :=
  ⟨s.data.map Char.toLower⟩

/-- JS `s.endsWith(suffix)`, at the character level. -/
def strEndsWith (s suffix : String) : Bool :=
  List.isSuffixOf suffix.data s.data

/-- Drop the last `n` characters of `s`. -/
def strDropRight (s : String) (n : Nat) : String :=
  ⟨s.data.take (s.data.length - n)⟩

/-- `filename.replace(/\.md$/, '')`. -/
def mdBaseName (filename : String) : String :=
  if strEndsWith filename ".md" then strDropRight filename 3 else filename

/-- The `variations` array built for one governance filename
(src/analyzer.js lines 212–230): exact, lowercase, `.github/`-prefixed
exact and lowercase, plus — when the name ends in `.md` — the same four
with `.rst` substituted. -/
def variations (filename : String) : List String :=
  let base := [filename, strToLower filename,
               ".github/" ++ filename, ".github/" ++ strToLower filename]
  if strEndsWith filename ".md" then
    let rstFilename := mdBaseName filename ++ ".rst"
    base ++ [rstFilename, strToLower rstFilename,
             ".github/" ++ rstFilename, ".github/" ++ strToLower rstFilename]
  else base

/-- The fixed `governanceFiles` table (filename, severity, purpose),
src/analyzer.js lines 201–209. -/
def governanceFiles : List (String × String × String) :=
  [("LICENSE", "critical", "usage rights and legal terms"),
   ("CONTRIBUTING.md", "important", "contribution process"),
   ("CODE_OF_CONDUCT.md", "recommended", "community standards"),
   ("SECURITY.md", "important", "vulnerability reporting"),
   ("CHANGELOG.md", "recommended", "change tracking"),
   ("ACCESSIBILITY.md", "recommended", "accessibility commitment and transparency"),
   ("SUSTAINABILITY.md", "optional", "digital sustainability and environmental impact")]

/-- `GitHubAnalyzer.getGovernanceRisk` (src/analyzer.js lines 427–438). -/
def getGovernanceRisk (filename : String) : String :=
  if filename = "LICENSE" then
    "Legal uncertainty, unclear usage rights, potential compliance violations"
  else if filename = "CONTRIBUTING.md" then
    "Contributors lack guidance, inconsistent contributions, review friction"
  else if filename = "CODE_OF_CONDUCT.md" then
    "No community standards, potential for unaddressed harassment"
  else if filename = "SECURITY.md" then
    "Security researchers lack reporting channel, delayed vulnerability disclosure"
  else if filename = "CHANGELOG.md" then
    "Users cannot track changes, difficult to assess upgrade impact"
  else if filename = "ACCESSIBILITY.md" then
    "No accessibility transparency, unclear WCAG conformance, potential barriers for disabled users"
  else if filename = "SUSTAINABILITY.md" then
    "No sustainability policy, unclear environmental impact, missed opportunity for carbon reduction"
  else "Governance gap"

/-- The recommendation string built in src/analyzer.js lines 241–248,
including the template links for ACCESSIBILITY.md and SUSTAINABILITY.md. -/
def governanceRecommendation (filename purpose : String) : String :=
  let base := "Add " ++ filename ++ " (or .rst equivalent) to clarify " ++ purpose
  if filename = "ACCESSIBILITY.md" then
    base ++ ". Template: https://github.com/mgifford/ACCESSIBILITY.md"
  else if filename = "SUSTAINABILITY.md" then
    base ++ ". Template: https://github.com/mgifford/SUSTAINABILITY.md"
  else base

/-- The finding pushed for a missing governance file
(src/analyzer.js lines 250–259). -/
def govFinding (filename severity purpose : String) : Finding :=
  { category := "governance"
    severity := severity
    title := "Missing " ++ filename
    description := getGovernanceRisk filename
    recommendation := governanceRecommendation filename purpose
    automated := (["SECURITY.md", "CONTRIBUTING.md"] : List String).contains filename
    time_estimate := if filename = "LICENSE" then "1–3 hours" else "15–45 minutes"
    requires_write_access := true }

/-- `variations.some(v => files.has(v))` for one governance filename. -/
def foundInRepo (files : List String) (filename : String) : Bool :=
  (variations filename).any fun v => files.contains v

/-- The `foundInOrgGithub` flag for one filename: starts `false` and is set
from `checkOrgGithubFile` only when the file is absent in-repo and the
owner has a `.github` repository (src/analyzer.js lines 234–238).
`checkOrgFile` is the oracle for `await this.checkOrgGithubFile(owner, ·)`. -/
def foundInOrgGithubFor (files : List String) (hasOrgGithub : Bool)
    (checkOrgFile : String → Bool) (filename : String) : Bool :=
  !foundInRepo files filename && hasOrgGithub && checkOrgFile filename

/-- `GitHubAnalyzer.checkGovernanceFiles` (src/analyzer.js lines 200–268).
The JS loop pushes, per governance filename and in table order, at most one
finding onto `result.findings` and at most one limitation string onto
`result.limitations`; the pair returned here is exactly those two pushed
lists. -/
def checkGovernanceFiles (files : List String) (owner : String)
    (hasOrgGithub : Bool) (checkOrgFile : String → Bool) :
    List Finding × List String :=
  (governanceFiles.filterMap fun e =>
    if !foundInRepo files e.1 && !foundInOrgGithubFor files hasOrgGithub checkOrgFile e.1 then
      some (govFinding e.1 e.2.1 e.2.2)
    else none,
   governanceFiles.filterMap fun e =>
    if foundInOrgGithubFor files hasOrgGithub checkOrgFile e.1 then
      some (e.1 ++ " inherited from organization-level https://github.com/" ++ owner ++ "/.github")
    else none)

/-! ## Organization-inheritance cache (`orgGithubCache`, src/analyzer.js) -/

/-- The analyzer state the two org probes touch: `this.orgGithubCache`,
a JS `Map` modelled as an association list in insertion order. -/
structure AnalyzerState where
  orgGithubCache : List (String × Bool)

/-- `this.orgGithubCache.get(k)` (`none` models a missing key, for which
the JS code first tests `has`). -/
def cacheGet (st : AnalyzerState) (k : String) : Option Bool :=
  st.orgGithubCache.lookup k

/-- `this.orgGithubCache.set(k, v)`; the analyzer only ever calls this on
a key that is absent, so appending a fresh entry models `Map.set`. -/
def cacheSet (st : AnalyzerState) (k : String) (v : Bool) : AnalyzerState :=
  ⟨st.orgGithubCache ++ [(k, v)]⟩

/-- `this.apiBase`. -/
def apiBase : String := "https://api.github.com"

/-- `GitHubAnalyzer.checkOrgGithubFile` (src/analyzer.js lines 37–57).
`fetchOk url` is the oracle telling whether `fetchJSON(url)` resolves
(throwing maps to `false`).  The third component counts network probes
issued by this call. -/
def checkOrgGithubFile (fetchOk : String → Bool) (owner filename : String)
    (st : AnalyzerState) : Bool × AnalyzerState × Nat :=
  let cacheKey := owner ++ ":" ++ filename
  match cacheGet st cacheKey with
  | some v => (v, st, 0)
  | none =>
    let ok := fetchOk (apiBase ++ "/repos/" ++ owner ++ "/.github/contents/" ++ filename)
    (ok, cacheSet st cacheKey ok, 1)

/-- `GitHubAnalyzer.hasOrgGithubRepo` (src/analyzer.js lines 64–80). -/
def hasOrgGithubRepo (fetchOk : String → Bool) (owner : String)
    (st : AnalyzerState) : Bool × AnalyzerState × Nat :=
  let cacheKey := owner ++ ":_has_github_repo"
  match cacheGet st cacheKey with
  | some v => (v, st, 0)
  | none =>
    let ok := fetchOk (apiBase ++ "/repos/" ++ owner ++ "/.github")
    (ok, cacheSet st cacheKey ok, 1)

/-- One invocation of either org probe. -/
inductive OrgCall where
  | file : String → String → OrgCall
  | hasRepo : String → OrgCall

/-- Dispatch one `OrgCall` on the analyzer state. -/
def runOrgCall (fetchOk : String → Bool) : OrgCall → AnalyzerState →
    Bool × AnalyzerState × Nat
  | .file owner filename, st => checkOrgGithubFile fetchOk owner filename st
  | .hasRepo owner, st => hasOrgGithubRepo fetchOk owner st

/-- Run a sequence of org-probe calls, threading the analyzer state. -/
def runOrgCalls (fetchOk : String → Bool) (cs : List OrgCall)
    (st : AnalyzerState) : AnalyzerState :=
  cs.foldl (fun s c => (runOrgCall fetchOk c s).2.1) st

/-! ## OAuth session (`GitHubAuth`, the OAuth module) -/

/-- `sessionStorage`, modelled as an association list of string keys. -/
def SessionStorage := List (String × String)

/-- `sessionStorage.getItem(k)` (`none` is JS `null`). -/
def SessionStorage.getItem (s : SessionStorage) (k : String) : Option String :=
  List.lookup k s

/-- `sessionStorage.setItem(k, v)` — overwrite or add. -/
def SessionStorage.setItem (s : SessionStorage) (k v : String) : SessionStorage :=
  (k, v) :: (List.filter (fun p => p.1 != k) s)

/-- `sessionStorage.removeItem(k)`. -/
def SessionStorage.removeItem (s : SessionStorage) (k : String) : SessionStorage :=
  List.filter (fun p => p.1 != k) s

/-- `this.storageKey`. -/
def storageKey : String := "github_oauth_token"

/-- `this.stateKey`. -/
def stateKey : String := "github_oauth_state"

/-- Observable side effects of `handleOAuthCallback`, in program order. -/
inductive OAuthEffect where
  /-- `console.error(...)` -/
  | consoleError : OAuthEffect
  /-- the token-exchange `fetch(proxyUrl, {method: 'POST', body: {code, ...}})` -/
  | proxyPost : String → OAuthEffect
  /-- `window.history.replaceState(...)` (URL cleanup) -/
  | historyReplace : OAuthEffect
  /-- `window.location.reload()` -/
  | reload : OAuthEffect
  /-- `console.log(...)` -/
  | consoleLog : OAuthEffect
  /-- `alert(message)` -/
  | alertMsg : String → OAuthEffect
deriving DecidableEq

/-- Outcome of the token-exchange POST to the proxy, from the point of view
of the `await fetch` / `await response.json()` calls. -/
inductive ExchangeOutcome where
  /-- `fetch` rejects (network failure); the field is the error message -/
  | netError : String → ExchangeOutcome
  /-- response arrives with `!response.ok` -/
  | httpError : ExchangeOutcome
  /-- response OK but `data.access_token` is absent or falsy -/
  | noToken : ExchangeOutcome
  /-- response OK with `data.access_token` set to this string -/
  | token : String → ExchangeOutcome
deriving DecidableEq

/-- `GitHubAuth.clearState` (OAuth module lines 157–161): remove the state
key and clean up the URL. -/
def clearState (s : SessionStorage) : SessionStorage × List OAuthEffect :=
  (s.removeItem stateKey, [.historyReplace])

/-- `GitHubAuth.handleOAuthCallback(code, state)` (OAuth module lines
95–152), as a function of the configured proxy URL (`''` when
`window.CONFIG?.GITHUB_OAUTH_PROXY` is unset) and the exchange outcome.
Returns the final `sessionStorage` and the effects in program order. -/
def handleOAuthCallback (proxyUrl : String) (outcome : ExchangeOutcome)
    (code stateParam : String) (s : SessionStorage) :
    SessionStorage × List OAuthEffect :=
  let storedState := s.getItem stateKey
  if storedState ≠ some stateParam then
    -- `state !== storedState`: potential CSRF, abort before the try block
    let cleared := clearState s
    (cleared.1, .consoleError :: cleared.2)
  else if proxyUrl = "" then
    -- `throw new Error('OAuth proxy not configured...')`, caught below
    let cleared := clearState s
    (cleared.1,
     [.consoleError,
      .alertMsg "Authentication failed: OAuth proxy not configured. Please set GITHUB_OAUTH_PROXY in config.js"]
      ++ cleared.2)
  else
    match outcome with
    | .netError msg =>
      let cleared := clearState s
      (cleared.1,
       [.proxyPost code, .consoleError, .alertMsg ("Authentication failed: " ++ msg)] ++ cleared.2)
    | .httpError =>
      let cleared := clearState s
      (cleared.1,
       [.proxyPost code, .consoleError,
        .alertMsg "Authentication failed: Failed to exchange OAuth code for token"] ++ cleared.2)
    | .noToken =>
      let cleared := clearState s
      (cleared.1,
       [.proxyPost code, .consoleError,
        .alertMsg "Authentication failed: No access token in response"] ++ cleared.2)
    | .token t =>
      -- success: `setToken`, log, clean the URL, reload — `clearState` is
      -- NOT called on this path
      (s.setItem storageKey t,
       [.proxyPost code, .consoleLog, .historyReplace, .reload])

/-! ## Batch analysis loop (application module, `analyzeUserOrOrg`) -/

/-- Per-batch statistics (`analysisStats`). -/
structure BatchStats where
  succeeded : Nat
  failed : Nat
  total : Nat
deriving DecidableEq

/-- What the batch code does after the loop: either `showError(...)` (all
analyses failed) or proceed with the collected results and stats. -/
inductive BatchOutcome (β : Type) where
  | fatalError : BatchOutcome β
  | results : List β → BatchStats → BatchOutcome β

/-- The `for` loop over `repos` (application module lines 915–937):
each `analyzer.analyzeRepository` call either resolves (`.ok`) and its
result is pushed onto `batchResults`, or throws (`.error`) and only
`failedCount` is incremented — the loop continues either way. -/
def runBatchLoop {α β ε : Type} (analyze : α → Except ε β) :
    List α → List β × Nat
  | [] => ([], 0)
  | r :: rest =>
    let tail := runBatchLoop analyze rest
    match analyze r with
    | .ok res => (res :: tail.1, tail.2)
    | .error _ => (tail.1, tail.2 + 1)

/-- The batch loop plus its epilogue (application module lines 915–956):
collect results and failure count, record
`analysisStats = {succeeded, failed, total}`, and report a batch-level
error when every repository failed (`failedCount > 0 && batchResults.length
=== 0`). -/
def analyzeBatch {α β ε : Type} (analyze : α → Except ε β)
    (repos : List α) : BatchOutcome β :=
  let loop := runBatchLoop analyze repos
  let stats : BatchStats := ⟨loop.1.length, loop.2, repos.length⟩
  if loop.2 > 0 ∧ loop.1.length = 0 then .fatalError
  else .results loop.1 stats

/-! ## Finding prioritizer (`sortFindings`, application module) -/

/-- One entry of `prioritiesConfig.priorities` (only the fields
`sortFindings` reads). -/
structure PriorityEntry where
  title : String
  priority : Int
deriving DecidableEq

/-- `prioritiesConfig.options` (only the field `sortFindings` reads). -/
structure POptions where
  sort_strategy : String
deriving DecidableEq

/-- The `prioritiesConfig` global once loaded from `priorities.json`
(`none` models the global still being `null`). -/
structure PrioritiesConfig where
  options : POptions
  priorities : List PriorityEntry
deriving DecidableEq

/-- The `priorityMap` built by `priorities.forEach(p =>
priorityMap.set(p.title, p))`: `Map.set` overwrites, so a duplicated title
resolves to its last entry. -/
def buildPriorityMap (ps : List PriorityEntry) (t : String) : Option PriorityEntry :=
  (ps.filter fun p => p.title == t).getLast?

/-- The `severityOrder` object lookup: `some` rank for the four known
severities, `none` (JS `undefined`) otherwise. -/
def severityOrderJS (s : String) : Option Int :=
  if s = "critical" then some 0
  else if s = "important" then some 1
  else if s = "recommended" then some 2
  else if s = "optional" then some 3
  else none

/-- The severity comparator `severityOrder[a.severity] -
severityOrder[b.severity]`.  When either severity is unknown the JS
subtraction yields `NaN`, which `Array.prototype.sort` treats as `+0`. -/
def sevCompare (a b : Finding) : Int :=
  match severityOrderJS a.severity, severityOrderJS b.severity with
  | some x, some y => x - y
  | _, _ => 0

/-- The priority comparator (application module lines 396–411). -/
def prioCompare (pm : String → Option PriorityEntry) (a b : Finding) : Int :=
  match pm a.title, pm b.title with
  | some pa, some pb => pa.priority - pb.priority
  | some _, none => -1
  | none, some _ => 1
  | none, none => sevCompare a b

/-- Stable insertion of `x` after every element `y` with `c y x ≤ 0`:
the building block of the stable-sort model. -/
def jsInsert {α : Type} (c : α → α → Int) (x : α) : List α → List α
  | [] => [x]
  | y :: ys => if c y x ≤ 0 then y :: jsInsert c x ys else x :: y :: ys

/-- Model of ES2019 `Array.prototype.sort(c)` (specified to be stable) as
a stable insertion sort: elements are taken in input order, each placed
after all previously placed elements that do not compare greater. -/
def jsSort {α : Type} (c : α → α → Int) (l : List α) : List α :=
  l.foldl (fun acc x => jsInsert c x acc) []

/-- The comparator `sortFindings` passes to `Array.prototype.sort`,
as a function of the `prioritiesConfig` global. -/
def sortComparator (cfg : Option PrioritiesConfig) : Finding → Finding → Int :=
  match cfg with
  | none => sevCompare
  | some c =>
    if c.options.sort_strategy ≠ "priority" then sevCompare
    else prioCompare (buildPriorityMap c.priorities)

/-- `sortFindings` (application module lines 379–412): copy the array with
`[...findings]` and sort the copy with the severity comparator when no
config is loaded or `options.sort_strategy !== 'priority'`, else with the
priority comparator over the built priority map. -/
def sortFindings (cfg : Option PrioritiesConfig) (findings : List Finding) :
    List Finding :=
  match cfg with
  | none => jsSort sevCompare findings
  | some c =>
    if c.options.sort_strategy ≠ "priority" then jsSort sevCompare findings
    else jsSort (prioCompare (buildPriorityMap c.priorities)) findings

/-- `sortFindings` with the JS heap made explicit, to state the
no-mutation (frame) property: arrays live in a heap of array references;
`[...findings]` allocates a fresh array at a fresh reference, and `.sort`
mutates that fresh array in place.  Returns the new heap and the reference
of the returned array. -/
def sortFindingsHeap (cfg : Option PrioritiesConfig)
    (heap : List (List Finding)) (ref : Nat) : List (List Finding) × Nat :=
  let findings := heap.getD ref []
  let copyRef := heap.length
  let heap1 := heap ++ [findings]
  let heap2 := heap1.set copyRef (jsSort (sortComparator cfg) findings)
  (heap2, copyRef)

/-! ## Lemmas about the session-storage model -/

theorem lookup_filter_ne (t : List (String × String)) (k k' : String) (h : k' ≠ k) :
    List.lookup k' (t.filter fun p => p.1 != k) = List.lookup k' t := by
  induction t with
  | nil => rfl
  | cons p t ih =>
    obtain ⟨a, b⟩ := p
    by_cases hpk : a = k
    · have h1 : ((a, b).1 != k) = false := by simp [hpk]
      have h2 : (k' == a) = false := by simp [hpk, h]
      simp [List.filter_cons, h1, List.lookup, h2, ih]
    · have h1 : ((a, b).1 != k) = true := by simp [hpk]
      by_cases hkp : k' = a
      · simp [List.filter_cons, h1, List.lookup, hkp]
      · have h2 : (k' == a) = false := by simp [hkp]
        simp [List.filter_cons, h1, List.lookup, h2, ih]

theorem lookup_filter_self (t : List (String × String)) (k : String) :
    List.lookup k (t.filter fun p => p.1 != k) = none := by
  induction t with
  | nil => rfl
  | cons p t ih =>
    obtain ⟨a, b⟩ := p
    by_cases hpk : a = k
    · have h1 : ((a, b).1 != k) = false := by simp [hpk]
      simp [List.filter_cons, h1, ih]
    · have h1 : ((a, b).1 != k) = true := by simp [hpk]
      have h2 : (k == a) = false := by simp [Ne.symm hpk]
      simp [List.filter_cons, h1, List.lookup, h2, ih]

theorem getItem_removeItem_self (s : SessionStorage) (k : String) :
    (s.removeItem k).getItem k = none :=
  lookup_filter_self s k

theorem getItem_removeItem_ne (s : SessionStorage) (k k' : String) (h : k' ≠ k) :
    (s.removeItem k).getItem k' = s.getItem k' :=
  lookup_filter_ne s k k' h

theorem getItem_setItem_ne (s : SessionStorage) (k v k' : String) (h : k' ≠ k) :
    (s.setItem k v).getItem k' = s.getItem k' := by
  have hk : (k' == k) = false := by simp [h]
  simp only [SessionStorage.setItem, SessionStorage.getItem, List.lookup, hk]
  exact lookup_filter_ne s k k' h

/-! ## Claim theorems: OAuth (C3, C4) -/

/-- C3: in `handleOAuthCallback`, a callback whose `state` parameter
differs from the most recently stored state aborts before any
token-exchange request: no proxy POST is issued, no token is stored, and
the persisted CSRF state is cleared. -/
theorem handleOAuthCallback_state_mismatch_aborts
    (proxyUrl : String) (outcome : ExchangeOutcome) (code stateParam : String)
    (s : SessionStorage)
    (hmismatch : s.getItem stateKey ≠ some stateParam) :
    (∀ c, OAuthEffect.proxyPost c ∉
        (handleOAuthCallback proxyUrl outcome code stateParam s).2) ∧
    (handleOAuthCallback proxyUrl outcome code stateParam s).1.getItem storageKey
      = s.getItem storageKey ∧
    (handleOAuthCallback proxyUrl outcome code stateParam s).1.getItem stateKey
      = none := by
  have hres : handleOAuthCallback proxyUrl outcome code stateParam s =
      ((clearState s).1, .consoleError :: (clearState s).2) := by
    simp [handleOAuthCallback, hmismatch]
  rw [hres]
  refine ⟨?_, ?_, ?_⟩
  · intro c
    simp [clearState]
  · exact getItem_removeItem_ne s stateKey storageKey (by decide)
  · exact getItem_removeItem_self s stateKey

/-- C3 witness at a concrete mismatching callback. -/
theorem handleOAuthCallback_state_mismatch_aborts_witness :
    (∀ c, OAuthEffect.proxyPost c ∉
        (handleOAuthCallback "https://proxy.example" (.token "tok") "thecode" "forged"
          [(stateKey, "abc")]).2) ∧
    (handleOAuthCallback "https://proxy.example" (.token "tok") "thecode" "forged"
        [(stateKey, "abc")]).1.getItem storageKey
      = SessionStorage.getItem [(stateKey, "abc")] storageKey ∧
    (handleOAuthCallback "https://proxy.example" (.token "tok") "thecode" "forged"
        [(stateKey, "abc")]).1.getItem stateKey = none :=
  handleOAuthCallback_state_mismatch_aborts "https://proxy.example" (.token "tok")
    "thecode" "forged" [(stateKey, "abc")] (by decide)

/-- C4 counterexample: a successful callback (matching state, configured
proxy, access token returned) stores the token but leaves the persisted
CSRF state key set — `clearState` is not called on the success branch. -/
theorem handleOAuthCallback_success_keeps_state :
    (handleOAuthCallback "https://proxy.example" (.token "tok") "thecode" "abc"
        [(stateKey, "abc")]).1.getItem stateKey = some "abc" ∧
    (some "abc" : Option String) ≠ none ∧
    (handleOAuthCallback "https://proxy.example" (.token "tok") "thecode" "abc"
        [(stateKey, "abc")]).1.getItem storageKey = some "tok" := by
  refine ⟨by decide, by decide, by decide⟩

/-- C4 (amended): the persisted CSRF state is cleared in every failure
branch of `handleOAuthCallback` (state mismatch, missing proxy, network
error, non-OK exchange response, missing access token), but on the success
branch — matching state, configured proxy, access token present — the
state key is left untouched in session storage. -/
theorem handleOAuthCallback_state_cleared_amended
    (proxyUrl : String) (outcome : ExchangeOutcome) (code stateParam : String)
    (s : SessionStorage) :
    ((s.getItem stateKey = some stateParam ∧ proxyUrl ≠ "" ∧
        (∃ t, outcome = .token t)) →
      (handleOAuthCallback proxyUrl outcome code stateParam s).1.getItem stateKey
        = s.getItem stateKey) ∧
    (¬(s.getItem stateKey = some stateParam ∧ proxyUrl ≠ "" ∧
        (∃ t, outcome = .token t)) →
      (handleOAuthCallback proxyUrl outcome code stateParam s).1.getItem stateKey
        = none) := by
  constructor
  · rintro ⟨hmatch, hproxy, t, rfl⟩
    simp only [handleOAuthCallback, hmatch]
    simp only [ne_eq, not_true_eq_false, if_false, hproxy, if_neg hproxy]
    exact (getItem_setItem_ne s storageKey t stateKey (by decide)).trans hmatch
  · intro hfail
    by_cases hmatch : s.getItem stateKey = some stateParam
    · by_cases hproxy : proxyUrl = ""
      · simp [handleOAuthCallback, hmatch, hproxy, clearState,
          getItem_removeItem_self]
      · cases outcome with
        | netError m =>
          simp [handleOAuthCallback, hmatch, hproxy, clearState,
            getItem_removeItem_self]
        | httpError =>
          simp [handleOAuthCallback, hmatch, hproxy, clearState,
            getItem_removeItem_self]
        | noToken =>
          simp [handleOAuthCallback, hmatch, hproxy, clearState,
            getItem_removeItem_self]
        | token t =>
          exact absurd ⟨hmatch, hproxy, t, rfl⟩ hfail
    · simp [handleOAuthCallback, hmatch, clearState, getItem_removeItem_self]

/-- C4 witness: the amended theorem applied on the success branch and on a
failure branch at concrete inputs. -/
theorem handleOAuthCallback_state_cleared_amended_witness :
    (handleOAuthCallback "https://proxy.example" (.token "tok") "thecode" "abc"
        [(stateKey, "abc")]).1.getItem stateKey
      = SessionStorage.getItem [(stateKey, "abc")] stateKey ∧
    (handleOAuthCallback "https://proxy.example" .httpError "thecode" "abc"
        [(stateKey, "abc")]).1.getItem stateKey = none :=
  ⟨(handleOAuthCallback_state_cleared_amended "https://proxy.example" (.token "tok")
      "thecode" "abc" [(stateKey, "abc")]).1 ⟨by decide, by decide, "tok", rfl⟩,
   (handleOAuthCallback_state_cleared_amended "https://proxy.example" .httpError
      "thecode" "abc" [(stateKey, "abc")]).2
     (by rintro ⟨-, -, t, h⟩; exact ExchangeOutcome.noConfusion h)⟩

/-! ## Claim theorems: fetch gateway (C5) -/

/-- Modelled from the amended C5 claim: the message of the error thrown on
a non-2xx response — the stringified `message` field when the body parses
as JSON containing a truthy `message`, otherwise the generic
`"GitHub API error: {status}"`. -/
def apiErrorMessageSpec (status : Nat) (body : Option JsonVal) : String :=
  match body with
  | some v =>
    match v.getField "message" with
    | some m => if m.truthy then jsToString m
                else "GitHub API error: " ++ toString status
    | none => "GitHub API error: " ++ toString status
  | none => "GitHub API error: " ++ toString status

/-- C5 counterexample: for a 500 response whose body is the parseable JSON
`{"message": ""}` — which does contain a `message` field — the thrown
message is the generic string, not the body's `message` field, because the
code falls back on any falsy `error.message`. -/
theorem fetchJSON_empty_message_counterexample :
    (JsonVal.obj [("message", JsonVal.str "")]).getField "message"
      = some (JsonVal.str "") ∧
    fetchJSON (.resp ⟨500, some (.obj [("message", .str "")])⟩)
      = .error (.errObj "GitHub API error: 500") ∧
    "GitHub API error: 500" ≠ jsToString (JsonVal.str "") :=
  ⟨rfl, rfl, by decide⟩

/-- C5 (amended): `fetchJSON` fails on any non-2xx response by throwing an
`Error` whose message is the body's `message` field when the body parses
as JSON with a truthy `message` value, otherwise the generic
`"GitHub API error: {status}"`; a network-level failure propagates the
runtime's `TypeError` carrying the underlying cause, a value of a class
distinct from the `Error` thrown for API rejections. -/
theorem fetchJSON_error_taxonomy_amended :
    (∀ cause, fetchJSON (.netError cause) = .error (.typeErr cause)) ∧
    (∀ r : HttpResponse, r.ok = false →
        fetchJSON (.resp r) = .error (.errObj (apiErrorMessageSpec r.status r.body))) ∧
    (∀ cause msg, JSThrown.typeErr cause ≠ JSThrown.errObj msg) := by
  refine ⟨fun cause => rfl, ?_, fun cause msg h => JSThrown.noConfusion h⟩
  intro r hok
  obtain ⟨status, body⟩ := r
  cases body with
  | none => simp [fetchJSON, hok, apiErrorMessageSpec, JsonVal.getField]
  | some v =>
    simp only [fetchJSON, hok, Bool.not_false, if_true, Option.getD_some,
      apiErrorMessageSpec]

/-- C5 witness: a 404 with a JSON body carrying a truthy `message`. -/
theorem fetchJSON_error_taxonomy_amended_witness :
    fetchJSON (.resp ⟨404, some (.obj [("message", .str "Not Found")])⟩)
      = .error (.errObj "Not Found") :=
  fetchJSON_error_taxonomy_amended.2.1 ⟨404, some (.obj [("message", .str "Not Found")])⟩ rfl

/-! ## Claim theorems: maturity (C6) -/

/-- A minimal finding with a given severity, for concrete instances. -/
def sampleFinding (sev : String) : Finding :=
  { category := "governance"
    severity := sev
    title := "sample"
    description := ""
    recommendation := ""
    automated := false
    time_estimate := "15–45 minutes"
    requires_write_access := true }

/-- C6: `calculateMaturity` is a pure function of the finding list equal to
the claimed threshold function of the critical/important counts, and the
four stated instances hold: critical=1,important=0 → low;
critical=0,important=3 → medium; critical=0,important=2 → high;
critical=0,important=0 → high. -/
theorem calculateMaturity_thresholds :
    (∀ result : AnalysisResultRec,
      calculateMaturity result =
        maturityOfCounts
          ((result.findings.filter fun f => f.severity == "critical").length)
          ((result.findings.filter fun f => f.severity == "important").length)) ∧
    calculateMaturity ⟨[sampleFinding "critical"], []⟩ = "low" ∧
    calculateMaturity
      ⟨[sampleFinding "important", sampleFinding "important", sampleFinding "important"],
       []⟩ = "medium" ∧
    calculateMaturity ⟨[sampleFinding "important", sampleFinding "important"], []⟩
      = "high" ∧
    calculateMaturity ⟨[], []⟩ = "high" :=
  ⟨fun _ => rfl, by decide, by decide, by decide, by decide⟩

/-! ## Claim theorems: governance checks (C1, C2) -/

theorem string_append_left_cancel {p x y : String} (h : p ++ x = p ++ y) :
    x = y := by
  have hd := congrArg String.data h
  simp only [String.data_append, List.append_cancel_left_eq] at hd
  exact String.ext hd

/-- C1: for every governance filename in the fixed table and every file
tree, if the tree contains the filename under any of its documented
variants, `checkGovernanceFiles` emits no `Missing {filename}` finding for
it, whatever the org-inheritance state. -/
theorem checkGovernanceFiles_present_no_missing_finding
    (files : List String) (owner : String) (hasOrgGithub : Bool)
    (checkOrgFile : String → Bool) (filename severity purpose : String)
    (hmem : (filename, severity, purpose) ∈ governanceFiles)
    (hpresent : ∃ v ∈ variations filename, files.contains v = true) :
    ∀ f ∈ (checkGovernanceFiles files owner hasOrgGithub checkOrgFile).1,
      f.title ≠ "Missing " ++ filename := by
  intro f hf heq
  have hfound : foundInRepo files filename = true := by
    obtain ⟨v, hv, hvc⟩ := hpresent
    exact List.any_eq_true.mpr ⟨v, hv, hvc⟩
  simp only [checkGovernanceFiles, List.mem_filterMap] at hf
  obtain ⟨e, he, hsome⟩ := hf
  cases hcond : (!foundInRepo files e.1 &&
      !foundInOrgGithubFor files hasOrgGithub checkOrgFile e.1) with
  | false => simp [hcond] at hsome
  | true =>
    simp only [hcond, if_true] at hsome
    have hsome' : govFinding e.1 e.2.1 e.2.2 = f := by
      simpa using hsome
    have htitle : ("Missing " ++ e.1 : String) = "Missing " ++ filename := by
      have := congrArg Finding.title hsome'
      simpa [govFinding] using this.trans heq
    have hef : e.1 = filename := string_append_left_cancel htitle
    rw [hef, hfound] at hcond
    simp at hcond

/-- C1 witness: a tree containing `LICENSE` gets no `Missing LICENSE`
finding even with org inheritance switched off. -/
theorem checkGovernanceFiles_present_no_missing_finding_witness :
    (("LICENSE", "critical", "usage rights and legal terms") ∈ governanceFiles) ∧
    ∀ f ∈ (checkGovernanceFiles ["LICENSE", "README.md"] "acme" true
        fun _ => false).1,
      f.title ≠ "Missing LICENSE" :=
  ⟨by decide,
   checkGovernanceFiles_present_no_missing_finding ["LICENSE", "README.md"] "acme"
     true (fun _ => false) "LICENSE" "critical" "usage rights and legal terms"
     (by decide) ⟨"LICENSE", by decide, by decide⟩⟩

/-- C2: for a governance filename absent under all documented variants:
with an org `.github` repository containing the exact filename, a
limitation naming the organization-level inheritance is recorded and no
`Missing {filename}` finding is emitted; with no org `.github` repository
(`hasOrgGithub = false`) the `Missing {filename}` finding is emitted, no
matter what the org file probe would answer. -/
theorem checkGovernanceFiles_org_inheritance
    (files : List String) (owner : String) (hasOrgGithub : Bool)
    (checkOrgFile : String → Bool) (filename severity purpose : String)
    (hmem : (filename, severity, purpose) ∈ governanceFiles)
    (habsent : foundInRepo files filename = false) :
    ((hasOrgGithub = true ∧ checkOrgFile filename = true) →
      (filename ++ " inherited from organization-level https://github.com/"
          ++ owner ++ "/.github")
        ∈ (checkGovernanceFiles files owner hasOrgGithub checkOrgFile).2 ∧
      ∀ f ∈ (checkGovernanceFiles files owner hasOrgGithub checkOrgFile).1,
        f.title ≠ "Missing " ++ filename) ∧
    (hasOrgGithub = false →
      govFinding filename severity purpose
        ∈ (checkGovernanceFiles files owner hasOrgGithub checkOrgFile).1 ∧
      (govFinding filename severity purpose).title = "Missing " ++ filename) := by
  constructor
  · rintro ⟨horg, hfile⟩
    have hinorg : foundInOrgGithubFor files hasOrgGithub checkOrgFile filename = true := by
      simp [foundInOrgGithubFor, habsent, horg, hfile]
    constructor
    · simp only [checkGovernanceFiles, List.mem_filterMap]
      exact ⟨(filename, severity, purpose), hmem, by simp [hinorg]⟩
    · intro f hf heq
      simp only [checkGovernanceFiles, List.mem_filterMap] at hf
      obtain ⟨e, he, hsome⟩ := hf
      cases hcond : (!foundInRepo files e.1 &&
          !foundInOrgGithubFor files hasOrgGithub checkOrgFile e.1) with
      | false => simp [hcond] at hsome
      | true =>
        simp only [hcond, if_true] at hsome
        have hsome' : govFinding e.1 e.2.1 e.2.2 = f := by
          simpa using hsome
        have htitle : ("Missing " ++ e.1 : String) = "Missing " ++ filename := by
          have := congrArg Finding.title hsome'
          simpa [govFinding] using this.trans heq
        have hef : e.1 = filename := string_append_left_cancel htitle
        rw [hef, hinorg] at hcond
        simp at hcond
  · intro horg
    have hinorg : foundInOrgGithubFor files hasOrgGithub checkOrgFile filename = false := by
      simp [foundInOrgGithubFor, horg]
    refine ⟨?_, by simp [govFinding]⟩
    simp only [checkGovernanceFiles, List.mem_filterMap]
    exact ⟨(filename, severity, purpose), hmem, by simp [habsent, hinorg]⟩

/-- C2 witness: `CODE_OF_CONDUCT.md` absent from an empty tree — inherited
from the org when the probe answers true, reported missing when the owner
has no `.github` repository. -/
theorem checkGovernanceFiles_org_inheritance_witness :
    ("CODE_OF_CONDUCT.md inherited from organization-level https://github.com/acme/.github"
        ∈ (checkGovernanceFiles [] "acme" true fun _ => true).2) ∧
    govFinding "CODE_OF_CONDUCT.md" "recommended" "community standards"
      ∈ (checkGovernanceFiles [] "acme" false fun _ => true).1 :=
  ⟨((checkGovernanceFiles_org_inheritance [] "acme" true (fun _ => true)
      "CODE_OF_CONDUCT.md" "recommended" "community standards"
      (by decide) (by decide)).1 ⟨rfl, rfl⟩).1,
   ((checkGovernanceFiles_org_inheritance [] "acme" false (fun _ => true)
      "CODE_OF_CONDUCT.md" "recommended" "community standards"
      (by decide) (by decide)).2 rfl).1⟩

/-! ## Claim theorems: org-inheritance cache (C7) -/

theorem lookup_append_some {α β : Type} [BEq α] {l1 l2 : List (α × β)}
    {k : α} {v : β} (h : List.lookup k l1 = some v) :
    List.lookup k (l1 ++ l2) = some v := by
  induction l1 with
  | nil => simp [List.lookup] at h
  | cons p t ih =>
    obtain ⟨a, b⟩ := p
    simp only [List.lookup, List.cons_append] at h ⊢
    cases hk : k == a with
    | true => rw [hk] at h; simpa [hk] using h
    | false => rw [hk] at h; simpa [hk] using ih h

theorem lookup_append_none {α β : Type} [BEq α] {l1 l2 : List (α × β)}
    {k : α} (h : List.lookup k l1 = none) :
    List.lookup k (l1 ++ l2) = List.lookup k l2 := by
  induction l1 with
  | nil => rfl
  | cons p t ih =>
    obtain ⟨a, b⟩ := p
    simp only [List.lookup, List.cons_append] at h ⊢
    cases hk : k == a with
    | true => rw [hk] at h; simp at h
    | false => rw [hk] at h; simpa [hk] using ih h

/-- The cache key used by each probe. -/
def orgCallKey : OrgCall → String
  | .file owner filename => owner ++ ":" ++ filename
  | .hasRepo owner => owner ++ ":_has_github_repo"

theorem cacheGet_cacheSet_self (st : AnalyzerState) (k : String) (v : Bool)
    (h : cacheGet st k = none) : cacheGet (cacheSet st k v) k = some v := by
  simp only [cacheGet, cacheSet] at h ⊢
  rw [lookup_append_none h]
  simp [List.lookup]

theorem cacheGet_cacheSet_preserve (st : AnalyzerState) (k k' : String)
    (v v' : Bool) (h : cacheGet st k' = some v') :
    cacheGet (cacheSet st k v) k' = some v' := by
  simp only [cacheGet, cacheSet] at h ⊢
  exact lookup_append_some h

theorem runOrgCall_caches (fetchOk : String → Bool) (c : OrgCall)
    (st : AnalyzerState) :
    cacheGet (runOrgCall fetchOk c st).2.1 (orgCallKey c)
      = some (runOrgCall fetchOk c st).1 := by
  cases c with
  | file owner filename =>
    simp only [runOrgCall, checkOrgGithubFile, orgCallKey]
    cases h : cacheGet st (owner ++ ":" ++ filename) with
    | some v => simp [h]
    | none => simpa [h] using cacheGet_cacheSet_self st _ _ h
  | hasRepo owner =>
    simp only [runOrgCall, hasOrgGithubRepo, orgCallKey]
    cases h : cacheGet st (owner ++ ":_has_github_repo") with
    | some v => simp [h]
    | none => simpa [h] using cacheGet_cacheSet_self st _ _ h

theorem runOrgCall_preserves (fetchOk : String → Bool) (c : OrgCall)
    (st : AnalyzerState) (k : String) (v : Bool) (h : cacheGet st k = some v) :
    cacheGet (runOrgCall fetchOk c st).2.1 k = some v := by
  cases c with
  | file owner filename =>
    simp only [runOrgCall, checkOrgGithubFile]
    cases hc : cacheGet st (owner ++ ":" ++ filename) with
    | some w => simpa [hc] using h
    | none => simpa [hc] using cacheGet_cacheSet_preserve st _ k _ v h
  | hasRepo owner =>
    simp only [runOrgCall, hasOrgGithubRepo]
    cases hc : cacheGet st (owner ++ ":_has_github_repo") with
    | some w => simpa [hc] using h
    | none => simpa [hc] using cacheGet_cacheSet_preserve st _ k _ v h

theorem runOrgCalls_preserves (fetchOk : String → Bool) (cs : List OrgCall)
    (st : AnalyzerState) (k : String) (v : Bool) (h : cacheGet st k = some v) :
    cacheGet (runOrgCalls fetchOk cs st) k = some v := by
  induction cs generalizing st with
  | nil => exact h
  | cons c cs ih =>
    exact ih _ (runOrgCall_preserves fetchOk c st k v h)

theorem runOrgCall_cached (fetchOk : String → Bool) (c : OrgCall)
    (st : AnalyzerState) (v : Bool) (h : cacheGet st (orgCallKey c) = some v) :
    runOrgCall fetchOk c st = (v, st, 0) := by
  cases c with
  | file owner filename =>
    simp only [orgCallKey] at h
    simp [runOrgCall, checkOrgGithubFile, h]
  | hasRepo owner =>
    simp only [orgCallKey] at h
    simp [runOrgCall, hasOrgGithubRepo, h]

/-- C7: the org-inheritance cache is write-once per key — once
`checkOrgGithubFile` or `hasOrgGithubRepo` has resolved a key, any later
identical call on the same analyzer instance, after any interleaved
sequence of other probe calls, returns the stored boolean, leaves the
cache untouched and issues zero network probes. -/
theorem orgGithubCache_write_once (fetchOk : String → Bool) (c : OrgCall)
    (cs : List OrgCall) (st : AnalyzerState) :
    runOrgCall fetchOk c (runOrgCalls fetchOk cs (runOrgCall fetchOk c st).2.1)
      = ((runOrgCall fetchOk c st).1,
         runOrgCalls fetchOk cs (runOrgCall fetchOk c st).2.1, 0) :=
  runOrgCall_cached fetchOk c _ _
    (runOrgCalls_preserves fetchOk cs _ _ _ (runOrgCall_caches fetchOk c st))

/-! ## Claim theorems: batch isolation (C9) -/

theorem countP_add_countP_not {α : Type} (p : α → Bool) (l : List α) :
    l.countP p + l.countP (fun a => !(p a)) = l.length := by
  induction l with
  | nil => rfl
  | cons a t ih =>
    simp only [List.countP_cons, List.length_cons]
    cases h : p a <;> simp [h] <;> omega

theorem length_filterMap_toOption {α β ε : Type} (analyze : α → Except ε β)
    (l : List α) :
    (l.filterMap fun r => (analyze r).toOption).length
      = l.countP fun r => (analyze r).toOption.isSome := by
  induction l with
  | nil => rfl
  | cons a t ih =>
    simp only [List.filterMap_cons, List.countP_cons]
    cases h : (analyze a).toOption <;> simp [h, ih]

theorem runBatchLoop_eq {α β ε : Type} (analyze : α → Except ε β)
    (repos : List α) :
    runBatchLoop analyze repos =
      (repos.filterMap fun r => (analyze r).toOption,
       repos.countP fun r => !(analyze r).toOption.isSome) := by
  induction repos with
  | nil => rfl
  | cons r rest ih =>
    simp only [runBatchLoop, ih, List.filterMap_cons, List.countP_cons]
    cases h : analyze r <;> simp [h, Except.toOption]

/-- C9: batch failure isolation — when exactly one of the repositories
fails and at least one succeeds, the loop returns the results of all the
succeeding repositories (it never aborts the remaining analyses) with
stats `succeeded = N-1`, `failed = 1`, `total = N`; when every repository
of a non-empty batch fails, the batch reports a batch-level error instead
of returning an empty success. -/
theorem analyzeBatch_failure_isolation {α β ε : Type}
    (analyze : α → Except ε β) (repos : List α) :
    (((repos.countP fun r => !(analyze r).toOption.isSome) = 1 ∧
      0 < repos.countP fun r => (analyze r).toOption.isSome) →
      analyzeBatch analyze repos =
        .results (repos.filterMap fun r => (analyze r).toOption)
          ⟨repos.length - 1, 1, repos.length⟩) ∧
    ((0 < repos.length ∧ ∀ r ∈ repos, (analyze r).toOption = none) →
      analyzeBatch analyze repos = .fatalError) := by
  have hsum := countP_add_countP_not (fun r => (analyze r).toOption.isSome) repos
  have hlen := length_filterMap_toOption analyze repos
  constructor
  · rintro ⟨hfail, hsucc⟩
    have hlen1 : (repos.filterMap fun r => (analyze r).toOption).length
        = repos.length - 1 := by omega
    have hpos : 0 < (repos.filterMap fun r => (analyze r).toOption).length := by
      omega
    simp only [analyzeBatch, runBatchLoop_eq, hfail]
    rw [if_neg (by omega)]
    rw [hlen1]
  · rintro ⟨hne, hall⟩
    have hnil : (repos.filterMap fun r => (analyze r).toOption) = [] :=
      List.filterMap_eq_nil_iff.mpr hall
    have hcnt : (repos.countP fun r => !(analyze r).toOption.isSome)
        = repos.length := by
      refine List.countP_eq_length.mpr ?_
      intro a ha
      simp [hall a ha]
    simp only [analyzeBatch, runBatchLoop_eq, hnil, hcnt]
    rw [if_pos (by simp; omega)]

/-- C9 witness: a three-repository batch with one failure, and a
one-repository batch that entirely fails. -/
theorem analyzeBatch_failure_isolation_witness :
    analyzeBatch (fun n : Nat => if n = 1 then Except.error "boom" else Except.ok n)
        [0, 1, 2] = .results [0, 2] ⟨2, 1, 3⟩ ∧
    analyzeBatch (fun _ : Nat => (Except.error "down" : Except String Nat)) [7]
      = .fatalError :=
  ⟨(analyzeBatch_failure_isolation
      (fun n : Nat => if n = 1 then Except.error "boom" else Except.ok n)
      [0, 1, 2]).1 ⟨by decide, by decide⟩,
   (analyzeBatch_failure_isolation
      (fun _ : Nat => (Except.error "down" : Except String Nat)) [7]).2
     ⟨by decide, by decide⟩⟩

/-! ## Generic lemmas about the stable-sort model `jsSort` -/

theorem mem_jsInsert {α : Type} (c : α → α → Int) (x a : α) (l : List α) :
    a ∈ jsInsert c x l ↔ a = x ∨ a ∈ l := by
  induction l with
  | nil => simp [jsInsert]
  | cons y ys ih =>
    by_cases h : c y x ≤ 0
    · simp only [jsInsert, if_pos h, List.mem_cons, ih]
      tauto
    · simp only [jsInsert, if_neg h, List.mem_cons]

theorem jsInsert_pairwise {α : Type} (c : α → α → Int) (P : α → Prop)
    (R : α → α → Prop)
    (htrans : ∀ a b d, P a → P b → P d → c a b ≤ 0 → c b d ≤ 0 → c a d ≤ 0)
    (x : α) (l : List α) (hPx : P x) (hPl : ∀ y ∈ l, P y)
    (hsort : l.Pairwise fun a b => c a b ≤ 0)
    (h1 : ∀ y ∈ l, c y x ≤ 0 → R y x)
    (h2 : ∀ y ∈ l, ¬(c y x ≤ 0) → R x y)
    (hR : l.Pairwise R) :
    (jsInsert c x l).Pairwise R := by
  induction l with
  | nil => simp [jsInsert]
  | cons y ys ih =>
    rw [List.pairwise_cons] at hR hsort
    by_cases hc : c y x ≤ 0
    · simp only [jsInsert, if_pos hc]
      rw [List.pairwise_cons]
      refine ⟨?_, ?_⟩
      · intro b hb
        rcases (mem_jsInsert c x b ys).mp hb with rfl | hbys
        · exact h1 y (List.mem_cons_self y ys) hc
        · exact hR.1 b hbys
      · exact ih (fun z hz => hPl z (List.mem_cons_of_mem y hz)) hsort.2
          (fun z hz => h1 z (List.mem_cons_of_mem y hz))
          (fun z hz => h2 z (List.mem_cons_of_mem y hz)) hR.2
    · simp only [jsInsert, if_neg hc]
      rw [List.pairwise_cons]
      refine ⟨?_, ?_⟩
      · intro b hb
        rcases List.mem_cons.mp hb with rfl | hbys
        · exact h2 _ (List.mem_cons_self _ _) hc
        · by_cases hw : c b x ≤ 0
          · exact absurd
              (htrans y b x (hPl y (List.mem_cons_self y ys))
                (hPl b (List.mem_cons_of_mem y hbys)) hPx (hsort.1 b hbys) hw) hc
          · exact h2 b (List.mem_cons_of_mem y hbys) hw
      · exact List.pairwise_cons.mpr ⟨hR.1, hR.2⟩

theorem jsSort_loop_pairwise {α : Type} (c : α → α → Int) (P : α → Prop)
    (R : α → α → Prop)
    (hanti : ∀ a b, P a → P b → c a b = -(c b a))
    (htrans : ∀ a b d, P a → P b → P d → c a b ≤ 0 → c b d ≤ 0 → c a d ≤ 0)
    (l : List α) :
    ∀ (acc : List α), (∀ x ∈ acc, P x) → (∀ x ∈ l, P x) →
    acc.Pairwise (fun a b => c a b ≤ 0) → acc.Pairwise R →
    (∀ y ∈ acc, ∀ x ∈ l, (c y x ≤ 0 → R y x) ∧ (¬(c y x ≤ 0) → R x y)) →
    l.Pairwise (fun a b => (c a b ≤ 0 → R a b) ∧ (¬(c a b ≤ 0) → R b a)) →
    (l.foldl (fun acc x => jsInsert c x acc) acc).Pairwise R := by
  induction l with
  | nil =>
    intro acc _ _ _ hRacc _ _
    exact hRacc
  | cons x rest ih =>
    intro acc hPacc hPl hsort hRacc hcross hl
    rw [List.pairwise_cons] at hl
    have hPx : P x := hPl x (List.mem_cons_self x rest)
    have hPacc' : ∀ z ∈ jsInsert c x acc, P z := by
      intro z hz
      rcases (mem_jsInsert c x z acc).mp hz with rfl | hzacc
      · exact hPx
      · exact hPacc z hzacc
    have hsort' : (jsInsert c x acc).Pairwise (fun a b => c a b ≤ 0) := by
      refine jsInsert_pairwise c P _ htrans x acc hPx hPacc hsort
        (fun y _ hle => hle) (fun y hy hnle => ?_) hsort
      have h := hanti x y hPx (hPacc y hy)
      omega
    have hRacc' : (jsInsert c x acc).Pairwise R :=
      jsInsert_pairwise c P R htrans x acc hPx hPacc hsort
        (fun y hy => (hcross y hy x (List.mem_cons_self x rest)).1)
        (fun y hy => (hcross y hy x (List.mem_cons_self x rest)).2) hRacc
    have hcross' : ∀ y ∈ jsInsert c x acc, ∀ w ∈ rest,
        (c y w ≤ 0 → R y w) ∧ (¬(c y w ≤ 0) → R w y) := by
      intro y hy w hw
      rcases (mem_jsInsert c x y acc).mp hy with rfl | hyacc
      · exact hl.1 w hw
      · exact hcross y hyacc w (List.mem_cons_of_mem x hw)
    simpa using ih (jsInsert c x acc) hPacc'
      (fun z hz => hPl z (List.mem_cons_of_mem x hz)) hsort' hRacc' hcross' hl.2

theorem jsSort_pairwise {α : Type} (c : α → α → Int) (P : α → Prop)
    (R : α → α → Prop)
    (hanti : ∀ a b, P a → P b → c a b = -(c b a))
    (htrans : ∀ a b d, P a → P b → P d → c a b ≤ 0 → c b d ≤ 0 → c a d ≤ 0)
    (l : List α) (hPl : ∀ x ∈ l, P x)
    (hl : l.Pairwise fun a b => (c a b ≤ 0 → R a b) ∧ (¬(c a b ≤ 0) → R b a)) :
    (jsSort c l).Pairwise R := by
  exact jsSort_loop_pairwise c P R hanti htrans l [] (by simp) hPl
    (by simp) (by simp) (by simp) hl

theorem map_snd_jsInsert {β : Type} (c : β → β → Int) (x : Nat × β)
    (l : List (Nat × β)) :
    (jsInsert (fun p q => c p.2 q.2) x l).map Prod.snd
      = jsInsert c x.2 (l.map Prod.snd) := by
  induction l with
  | nil => rfl
  | cons y ys ih =>
    by_cases h : c y.2 x.2 ≤ 0 <;> simp [jsInsert, h, ih]

theorem map_snd_jsSort_loop {β : Type} (c : β → β → Int) :
    ∀ (l acc : List (Nat × β)),
    (l.foldl (fun acc x => jsInsert (fun p q : Nat × β => c p.2 q.2) x acc) acc).map
        Prod.snd
      = (l.map Prod.snd).foldl (fun acc x => jsInsert c x acc) (acc.map Prod.snd) := by
  intro l
  induction l with
  | nil => intro acc; rfl
  | cons x rest ih =>
    intro acc
    simp only [List.foldl_cons, List.map_cons]
    rw [ih, map_snd_jsInsert]

theorem map_snd_jsSort {β : Type} (c : β → β → Int) (l : List (Nat × β)) :
    (jsSort (fun p q : Nat × β => c p.2 q.2) l).map Prod.snd
      = jsSort c (l.map Prod.snd) := by
  simpa [jsSort] using map_snd_jsSort_loop c l []

theorem enum_pairwise_fst_lt {β : Type} (l : List β) :
    l.enum.Pairwise fun p q => p.1 < q.1 := by
  have h : (l.enum.map Prod.fst).Pairwise (· < ·) := by
    rw [List.enum_map_fst]
    exact List.pairwise_lt_range l.length
  exact List.pairwise_map.mp h

theorem mem_enum_snd_mem {β : Type} {l : List β} {p : Nat × β}
    (h : p ∈ l.enum) : p.2 ∈ l := by
  have : p.2 ∈ l.enum.map Prod.snd := List.mem_map_of_mem Prod.snd h
  rwa [List.enum_map_snd] at this

/-! ## Comparator properties (severity and priority comparators) -/

/-- The findings this repository produces all carry one of the four known
severities; the comparators are only consistent on such findings. -/
def validSev (f : Finding) : Prop := (severityOrderJS f.severity).isSome = true

instance (f : Finding) : Decidable (validSev f) :=
  decidable_of_iff ((severityOrderJS f.severity).isSome = true) Iff.rfl

/-- Claim-side relation: severity rank order
`critical < important < recommended < optional`. -/
def sevRankLE (a b : Finding) : Prop :=
  ∀ ra rb, severityOrderJS a.severity = some ra →
    severityOrderJS b.severity = some rb → ra ≤ rb

/-- Claim-side relation for `sort_strategy = 'priority'`: an explicit
smaller priority comes first, any priority outranks no priority, and two
findings without priority entries fall back to severity rank. -/
def priorityOrdered (pm : String → Option PriorityEntry) (a b : Finding) : Prop :=
  match pm a.title, pm b.title with
  | some pa, some pb => pa.priority ≤ pb.priority
  | some _, none => True
  | none, some _ => False
  | none, none => sevRankLE a b

theorem sevCompare_anti (a b : Finding) (ha : validSev a) (hb : validSev b) :
    sevCompare a b = -(sevCompare b a) := by
  obtain ⟨ra, hra⟩ := Option.isSome_iff_exists.mp ha
  obtain ⟨rb, hrb⟩ := Option.isSome_iff_exists.mp hb
  simp only [sevCompare, hra, hrb]
  omega

theorem sevCompare_trans (a b d : Finding) (ha : validSev a) (hb : validSev b)
    (hd : validSev d) (h1 : sevCompare a b ≤ 0) (h2 : sevCompare b d ≤ 0) :
    sevCompare a d ≤ 0 := by
  obtain ⟨ra, hra⟩ := Option.isSome_iff_exists.mp ha
  obtain ⟨rb, hrb⟩ := Option.isSome_iff_exists.mp hb
  obtain ⟨rd, hrd⟩ := Option.isSome_iff_exists.mp hd
  simp only [sevCompare, hra, hrb, hrd] at h1 h2 ⊢
  omega

theorem sevCompare_le_imp (a b : Finding) (ha : validSev a) (hb : validSev b)
    (hle : sevCompare a b ≤ 0) : sevRankLE a b := by
  intro ra rb hra hrb
  simp only [sevCompare, hra, hrb] at hle
  omega

theorem prioCompare_anti (pm : String → Option PriorityEntry) (a b : Finding)
    (ha : validSev a) (hb : validSev b) :
    prioCompare pm a b = -(prioCompare pm b a) := by
  cases hpa : pm a.title <;> cases hpb : pm b.title <;>
    simp only [prioCompare, hpa, hpb] <;> try omega
  exact sevCompare_anti a b ha hb

theorem prioCompare_trans (pm : String → Option PriorityEntry) (a b d : Finding)
    (ha : validSev a) (hb : validSev b) (hd : validSev d)
    (h1 : prioCompare pm a b ≤ 0) (h2 : prioCompare pm b d ≤ 0) :
    prioCompare pm a d ≤ 0 := by
  have hsev := sevCompare_trans a b d ha hb hd
  cases hpa : pm a.title <;> cases hpb : pm b.title <;> cases hpd : pm d.title <;>
    simp only [prioCompare, hpa, hpb, hpd] at h1 h2 ⊢ <;> omega

theorem prioCompare_le_imp (pm : String → Option PriorityEntry) (a b : Finding)
    (ha : validSev a) (hb : validSev b) (hle : prioCompare pm a b ≤ 0) :
    priorityOrdered pm a b := by
  cases hpa : pm a.title <;> cases hpb : pm b.title <;>
    simp only [prioCompare, hpa, hpb] at hle <;>
    simp only [priorityOrdered, hpa, hpb] <;> try omega
  exact sevCompare_le_imp a b ha hb hle

/-! ## Claim theorems: finding prioritizer (C8) -/

/-- C8: under `sort_strategy = 'priority'`, every in-order pair of the
output of `sortFindings` satisfies the claimed order (smaller explicit
priority first, any priority before none, severity rank
`critical < important < recommended < optional` between two unprioritized
findings); with no config or another strategy the output is pairwise in
severity-rank order; and the sort is stable — sorting the index-tagged
list with the same comparator projects back onto `sortFindings` while ties
keep strictly increasing input indices (determinism is definitional, since
`sortFindings` is a function of its arguments). -/
theorem sortFindings_priority_order_stable
    (cfg : PrioritiesConfig) (fs : List Finding)
    (hstrat : cfg.options.sort_strategy = "priority")
    (hval : ∀ f ∈ fs, validSev f) :
    ((sortFindings (some cfg) fs).Pairwise
        (priorityOrdered (buildPriorityMap cfg.priorities))) ∧
    ((jsSort (fun p q : Nat × Finding =>
          prioCompare (buildPriorityMap cfg.priorities) p.2 q.2) fs.enum).map
        Prod.snd = sortFindings (some cfg) fs ∧
     (jsSort (fun p q : Nat × Finding =>
          prioCompare (buildPriorityMap cfg.priorities) p.2 q.2) fs.enum).Pairwise
        fun p q => prioCompare (buildPriorityMap cfg.priorities) p.2 q.2 = 0 →
          p.1 < q.1) ∧
    (∀ cfg' : Option PrioritiesConfig,
      (cfg' = none ∨ ∃ c, cfg' = some c ∧ c.options.sort_strategy ≠ "priority") →
      (sortFindings cfg' fs).Pairwise sevRankLE ∧
      (jsSort (fun p q : Nat × Finding => sevCompare p.2 q.2) fs.enum).map
          Prod.snd = sortFindings cfg' fs ∧
      (jsSort (fun p q : Nat × Finding => sevCompare p.2 q.2) fs.enum).Pairwise
        fun p q => sevCompare p.2 q.2 = 0 → p.1 < q.1) := by
  have hsfeq : sortFindings (some cfg) fs
      = jsSort (prioCompare (buildPriorityMap cfg.priorities)) fs := by
    simp [sortFindings, hstrat]
  have henum : ∀ p : Nat × Finding, p ∈ fs.enum → validSev p.2 :=
    fun p hp => hval p.2 (mem_enum_snd_mem hp)
  refine ⟨?_, ⟨?_, ?_⟩, ?_⟩
  · rw [hsfeq]
    refine jsSort_pairwise _ validSev _
      (fun a b ha hb => prioCompare_anti _ a b ha hb)
      (fun a b d ha hb hd => prioCompare_trans _ a b d ha hb hd) fs hval ?_
    refine List.pairwise_of_forall_mem_list ?_
    intro a ha b hb
    refine ⟨fun hle => prioCompare_le_imp _ a b (hval a ha) (hval b hb) hle,
      fun hnle => ?_⟩
    have hanti := prioCompare_anti (buildPriorityMap cfg.priorities) a b
      (hval a ha) (hval b hb)
    exact prioCompare_le_imp _ b a (hval b hb) (hval a ha) (by omega)
  · rw [map_snd_jsSort, List.enum_map_snd, hsfeq]
  · refine jsSort_pairwise _ (fun p : Nat × Finding => validSev p.2) _
      (fun p q hp hq => prioCompare_anti _ p.2 q.2 hp hq)
      (fun p q r hp hq hr => prioCompare_trans _ p.2 q.2 r.2 hp hq hr)
      fs.enum henum ?_
    refine List.Pairwise.imp_of_mem ?_ (enum_pairwise_fst_lt fs)
    intro p q hp hq hlt
    refine ⟨fun _ _ => hlt, fun hnle htie => ?_⟩
    have hanti := prioCompare_anti (buildPriorityMap cfg.priorities) p.2 q.2
      (henum p hp) (henum q hq)
    omega
  · intro cfg' hcfg
    have hsfeq' : sortFindings cfg' fs = jsSort sevCompare fs := by
      rcases hcfg with rfl | ⟨c, rfl, hc⟩
      · rfl
      · simp [sortFindings, hc]
    refine ⟨?_, ?_, ?_⟩
    · rw [hsfeq']
      refine jsSort_pairwise _ validSev _ sevCompare_anti sevCompare_trans fs hval ?_
      refine List.pairwise_of_forall_mem_list ?_
      intro a ha b hb
      refine ⟨fun hle => sevCompare_le_imp a b (hval a ha) (hval b hb) hle,
        fun hnle => ?_⟩
      have hanti := sevCompare_anti a b (hval a ha) (hval b hb)
      exact sevCompare_le_imp b a (hval b hb) (hval a ha) (by omega)
    · rw [map_snd_jsSort, List.enum_map_snd, hsfeq']
    · refine jsSort_pairwise _ (fun p : Nat × Finding => validSev p.2) _
        (fun p q hp hq => sevCompare_anti p.2 q.2 hp hq)
        (fun p q r hp hq hr => sevCompare_trans p.2 q.2 r.2 hp hq hr)
        fs.enum henum ?_
      refine List.Pairwise.imp_of_mem ?_ (enum_pairwise_fst_lt fs)
      intro p q hp hq hlt
      refine ⟨fun _ _ => hlt, fun hnle htie => ?_⟩
      have hanti := sevCompare_anti p.2 q.2 (henum p hp) (henum q hq)
      omega

/-- C8 witness: a three-finding list under a concrete priority config. -/
theorem sortFindings_priority_order_stable_witness :
    (sortFindings
        (some ⟨⟨"priority"⟩,
          [⟨"Missing LICENSE", 1⟩, ⟨"Missing README", 5⟩]⟩)
        [{ sampleFinding "critical" with title := "Missing README" },
         { sampleFinding "optional" with title := "Missing LICENSE" },
         { sampleFinding "important" with title := "Other finding" }]).Pairwise
      (priorityOrdered
        (buildPriorityMap [⟨"Missing LICENSE", 1⟩, ⟨"Missing README", 5⟩])) :=
  (sortFindings_priority_order_stable
    ⟨⟨"priority"⟩, [⟨"Missing LICENSE", 1⟩, ⟨"Missing README", 5⟩]⟩
    [{ sampleFinding "critical" with title := "Missing README" },
     { sampleFinding "optional" with title := "Missing LICENSE" },
     { sampleFinding "important" with title := "Other finding" }]
    rfl (by decide)).1

/-! ## Claim theorems: sortFindings does not mutate its input (C10) -/

theorem sortFindings_eq_jsSort (cfg : Option PrioritiesConfig)
    (fs : List Finding) :
    sortFindings cfg fs = jsSort (sortComparator cfg) fs := by
  cases cfg with
  | none => rfl
  | some c =>
    by_cases h : c.options.sort_strategy ≠ "priority" <;>
      simp [sortFindings, sortComparator, h]

/-- C10: `sortFindings` never mutates its argument — in the explicit-heap
model, the input array is bit-for-bit unchanged (same length, same element
order) after the call, and the returned reference is a freshly allocated
array holding the sorted copy. -/
theorem sortFindingsHeap_no_mutation (cfg : Option PrioritiesConfig)
    (heap : List (List Finding)) (ref : Nat) (href : ref < heap.length) :
    ((sortFindingsHeap cfg heap ref).1)[ref]? = heap[ref]? ∧
    (sortFindingsHeap cfg heap ref).2 ≠ ref ∧
    ((sortFindingsHeap cfg heap ref).1)[(sortFindingsHeap cfg heap ref).2]?
      = some (sortFindings cfg (heap.getD ref [])) ∧
    (sortFindingsHeap cfg heap ref).1.length = heap.length + 1 := by
  simp only [sortFindingsHeap]
  refine ⟨?_, by omega, ?_, by simp⟩
  · rw [List.getElem?_set, if_neg (by omega), List.getElem?_append,
      if_pos href]
  · rw [List.getElem?_set, if_pos rfl, if_pos (by simp),
      sortFindings_eq_jsSort]

/-- C10 witness at a concrete two-array heap. -/
theorem sortFindingsHeap_no_mutation_witness :
    ((sortFindingsHeap none
        [[sampleFinding "optional", sampleFinding "critical"]] 0).1)[0]?
      = [[sampleFinding "optional", sampleFinding "critical"]][0]? ∧
    (sortFindingsHeap none
        [[sampleFinding "optional", sampleFinding "critical"]] 0).2 ≠ 0 ∧
    ((sortFindingsHeap none
        [[sampleFinding "optional", sampleFinding "critical"]] 0).1)[
      (sortFindingsHeap none
        [[sampleFinding "optional", sampleFinding "critical"]] 0).2]?
      = some (sortFindings none
          ([[sampleFinding "optional", sampleFinding "critical"]].getD 0 [])) ∧
    (sortFindingsHeap none
        [[sampleFinding "optional", sampleFinding "critical"]] 0).1.length
      = 2 :=
  sortFindingsHeap_no_mutation none
    [[sampleFinding "optional", sampleFinding "critical"]] 0 (by decide)
